import Mathlib

/-!
Verification of the eagle-library-transformer consolidation pipeline
(src/transform.py) against its specification.

The Python source is shallowly embedded: pure string manipulation becomes
functions on `List Char` / `String`, the orchestrator `process_library`
becomes a fold over a pure description of the on-disk library, and the
environmental effects the code reacts to (existence of the library root,
readability of sidecars, success of an individual file copy) are explicit
fields of that description.  Lowercasing is modelled on ASCII, which is
where every code path of the source applies it to characters that survive
its own ASCII filter.
-/

namespace EagleTransform

/-! ## Characters and strings

Embeds the string operations used by `normalize_filename`,
`get_file_type` and the thumbnail test in src/transform.py. -/

/-- ASCII lower-casing of one character, as Python str.lower acts on the
ASCII range: code points 65-90 are shifted to 97-122, all others kept. -/
def lowerChar (c : Char) : Char :=
  if 65 ≤ c.toNat ∧ c.toNat ≤ 90 then Char.ofNat (c.toNat + 32) else c

/-- Lower-case every character of a list. -/
def lowerList (s : List Char) : List Char := s.map lowerChar

/-- Lower-case a string, as Python str.lower on ASCII input. -/
def lowerStr (s : String) : String := String.mk (lowerList s.data)

/-- Characters kept by the regex `[^a-zA-Z0-9-]` substitution in
`normalize_filename` (src/transform.py line 47): ASCII letters, digits
and the hyphen. -/
def keepChar (c : Char) : Bool :=
  (97 ≤ c.toNat && c.toNat ≤ 122) || (65 ≤ c.toNat && c.toNat ≤ 90) ||
  (48 ≤ c.toNat && c.toNat ≤ 57) || (c.toNat == 45)

/-- Python `name.replace(' ', '-')`. -/
def replaceSpaces (s : List Char) : List Char :=
  s.map (fun c => if c = ' ' then '-' else c)

/-- Python `re.sub(r'[^a-zA-Z0-9-]', '', s)`. -/
def stripBad (s : List Char) : List Char := s.filter keepChar

/-- The name-mangling core of `normalize_filename`:
`re.sub(r'[^a-zA-Z0-9-]', '', name.replace(' ', '-')).lower()`. -/
def norm_core (s : List Char) : List Char := lowerList (stripBad (replaceSpaces s))

/-- Splits a character list at its last dot: returns the part before the
last '.' and the part from the last '.' on, or none when no dot occurs. -/
def splitAtLastDot : List Char → Option (List Char × List Char)
  | [] => none
  | c :: t =>
    match splitAtLastDot t with
    | some (a, b) => some (c :: a, b)
    | none => if c = '.' then some ([], c :: t) else none

/-- Python `os.path.splitext` restricted to bare file names (no path
separator): split at the last dot unless every character before that dot
is itself a dot, in which case the extension is empty. -/
def splitext (p : List Char) : List Char × List Char :=
  match splitAtLastDot p with
  | none => (p, [])
  | some (nm, ex) => if nm.all (fun c => c = '.') then (p, []) else (nm, ex)

/-- Python pathlib `Path(nm).suffix` for a bare file name: the part from
the last dot on, provided the dot is neither the first nor the last
character; otherwise the empty string. -/
def suffixOf (nm : String) : String :=
  match splitAtLastDot nm.data with
  | none => ""
  | some (bef, ex) => if 0 < bef.length ∧ 1 < ex.length then String.mk ex else ""

/-- src/transform.py lines 44-48: `normalize_filename`. -/
def normalize_filename (filename : String) (item_id : String) : String :=
  let pr := splitext filename.data
  String.mk (norm_core pr.1 ++ ('-' :: item_id.data) ++ lowerList pr.2)

/-! ## Extension sets and the classifier -/

/-- src/transform.py lines 11-15: `IMAGE_EXTENSIONS`. -/
def IMAGE_EXTENSIONS : List String :=
  [".bmp", ".gif", ".heic", ".heif", ".hif", ".icns", ".ico", ".jpeg", ".jpg",
   ".png", ".svg", ".tif", ".tiff", ".webp", ".avif", ".base64", ".jfif",
   ".insp", ".jxl", ".jpe"]

/-- src/transform.py lines 17-42: `SUPPORTED_EXTENSIONS`, the union of the
image set with the remaining fixed lists (the source names ".otf" twice,
under fonts and RAW; as a set it appears once here). -/
def SUPPORTED_EXTENSIONS : List String :=
  IMAGE_EXTENSIONS ++
  [".fbx", ".obj", ".3ds", ".3mf", ".dae", ".ifc", ".ply", ".stl", ".glb",
   ".dds", ".exr", ".hdr", ".tga",
   ".afdesign", ".afphoto", ".afpub", ".ai", ".c4d", ".cdr", ".clip", ".dwg",
   ".graffle", ".idml", ".indd", ".indt", ".mindnode", ".psb", ".psd", ".psdt",
   ".pxd", ".principle", ".sketch", ".skt", ".skp", ".xd", ".xmind",
   ".m4v", ".mp4", ".webm", ".mov",
   ".aac", ".flac", ".m4a", ".mp3", ".ogg", ".wav",
   ".ttf", ".ttc", ".otf", ".woff",
   ".3fr", ".arw", ".cr2", ".cr3", ".crw", ".dng", ".erf", ".mrw", ".nef",
   ".nrw", ".orf", ".pef", ".raf", ".raw", ".rw2", ".sr2", ".srw", ".x3f",
   ".txt", ".key", ".numbers", ".pages", ".pdf", ".potx", ".ppt", ".pptx",
   ".xls", ".xlsx", ".doc", ".docx", ".eddx", ".emmx",
   ".html", ".mhtml", ".url"]

/-- src/transform.py lines 50-52: `get_file_type`. -/
def get_file_type (suffix : String) : String :=
  if IMAGE_EXTENSIONS.contains (lowerStr suffix) then "image" else "other"

/-- Boolean substring test: does the second list contain the first as a
contiguous infix? -/
def hasSub (needle : List Char) : List Char → Bool
  | [] => needle.isEmpty
  | c :: t => List.isPrefixOf needle (c :: t) || hasSub needle t

/-- Python `'thumbnail' in fname.lower()`. -/
def hasThumb (fname : String) : Bool :=
  hasSub "thumbnail".data (lowerList fname.data)

/-! ## Data model

`ItemMetadata` models the sidecar JSON object as the source observes it:
the `id`, `isDeleted`, `folders` and `width` keys (each possibly absent;
`isDeleted` records the truthiness the code tests), and `extra` carries
the remaining pass-through keys, which the pipeline never inspects. -/

structure ItemMetadata where
  id : Option String
  isDeleted : Bool
  folders : Option (List String)
  width : Option Int
  extra : List (String × String)
deriving DecidableEq

/-- One entry of the consolidated output: the item's metadata dictionary
with the `filename` and `file_type` keys added (src/transform.py lines
148-151). -/
structure Record where
  meta : ItemMetadata
  filename : String
  file_type : String
deriving DecidableEq

/-- Outcome of `process_file`: the returned (success, updated metadata)
pair together with the list of output files the call wrote. -/
structure PFResult where
  success : Bool
  record : Option Record
  writes : List String
deriving DecidableEq

/-- Python `min_width and metadata.get('width', 0) < min_width`: the
configured threshold is truthy (present and nonzero) and the item's
width, defaulting to 0, is below it. -/
def width_below (min_width : Option Int) (metadata : ItemMetadata) : Bool :=
  match min_width with
  | none => false
  | some w => w != 0 && decide (metadata.width.getD 0 < w)

/-- src/transform.py lines 118-151: `process_file`.  The file is given by
its name plus `copyOk`, the environmental fact whether the `shutil.copy2`
call would succeed; the output images directory only prefixes the copy
target, so the copy target is modelled by the new file name alone.  In
this model the metadata argument is always a record, so the
`isinstance(metadata, dict)` half of the validity test holds and only the
presence of the `id` key is tested.  The source's two local variables
file_type and new_filename are inlined. -/
def process_file (fname : String) (copyOk : Bool) (metadata : ItemMetadata)
    (images_only : Bool) (min_width : Option Int) : PFResult :=
  if fname = "metadata.json" ∨ hasThumb fname = true ∨
      SUPPORTED_EXTENSIONS.contains (lowerStr (suffixOf fname)) = false then
    ⟨false, none, []⟩
  else
    match metadata.id with
    | none => ⟨false, none, []⟩
    | some iid =>
      if width_below min_width metadata then ⟨false, none, []⟩
      else if images_only = true ∧ get_file_type (suffixOf fname) ≠ "image" then
        ⟨false, none, []⟩
      else if copyOk then
        ⟨true, some ⟨metadata, normalize_filename fname iid, get_file_type (suffixOf fname)⟩,
         [normalize_filename fname iid]⟩
      else ⟨false, none, []⟩

/-! ## Folder tree and folder map -/

/-- One node of the library metadata folder tree; `password` records the
truthiness of the node's `password` attribute as tested by
`folder.get("password")`. -/
inductive Folder where
  | node (fid fname : String) (password : Bool) (children : List Folder)

/-- The ID-to-name mapping, as an insertion-ordered association list with
unique keys, mirroring the Python dict. -/
abbrev FolderMap := List (String × String)

/-- Membership of a key, as Python `fid in folder_map`. -/
def fmMem (m : FolderMap) (k : String) : Bool := m.any (fun p => p.1 == k)

/-- Lookup, as Python `folder_map[fid]` on a present key. -/
def fmGet (m : FolderMap) (k : String) : Option String :=
  (m.find? (fun p => p.1 == k)).map (fun p => p.2)

/-- Python `folder_map[k] = v`: overwrite in place when the key exists,
else append. -/
def fmInsert (m : FolderMap) (k v : String) : FolderMap :=
  if fmMem m k then m.map (fun p => if p.1 == k then (k, v) else p)
  else m ++ [(k, v)]

/-- src/transform.py lines 104-116: `build_folder_map`.  A folder with a
truthy password is skipped together with its whole subtree; otherwise the
folder is inserted and its children are traversed into the same map
(the code guards the recursion by `folder.get("children")`, and
recursing into an empty child list is the identity, so the guard is
dropped here). -/
def build_folder_map : List Folder → FolderMap → FolderMap
  | [], folder_map => folder_map
  | Folder.node fid fname pw cs :: rest, folder_map =>
    if pw then build_folder_map rest folder_map
    else build_folder_map rest (build_folder_map cs (fmInsert folder_map fid fname))

/-- A folder id is reachable without passing a locked node: some node of
the tree carries the id, has a falsy password, and so do all its
ancestors. -/
def reachableUnlocked : List Folder → String → Bool
  | [], _ => false
  | Folder.node fid _ pw cs :: rest, k =>
    (!pw && (k == fid || reachableUnlocked cs k)) || reachableUnlocked rest k

/-- src/transform.py lines 190-195: replace the item's folder IDs by the
mapped names, silently dropping IDs absent from the map. -/
def rewriteFolders (fm : FolderMap) (m : ItemMetadata) : ItemMetadata :=
  match m.folders with
  | none => m
  | some fids => { m with folders := some (fids.filterMap (fun fid => fmGet fm fid)) }

/-! ## The orchestrator -/

/-- The mutable run state of `process_library`: the consolidated
metadata, the output files written so far (in write order; a later write
to the same name overwrites), and the five counters. -/
structure RunState where
  consolidated : List Record
  copied : List String
  processed : Nat
  skipped_non_image : Nat
  skipped_low_quality : Nat
  skipped_thumbnails : Nat
  deleted : Nat
deriving DecidableEq

/-- State at the start of a run. -/
def initState : RunState := ⟨[], [], 0, 0, 0, 0, 0⟩

/-- One item subfolder: its sidecar as the run observes it (`none` when
metadata.json is absent or its JSON malformed, both of which the code
skips with a warning) and its directory entries, each a file name paired
with whether copying that file would succeed. -/
structure Item where
  sidecar : Option ItemMetadata
  files : List (String × Bool)

/-- A library on disk, as `process_library` observes it: whether the
`library/images` root exists, the folder list of `library/metadata.json`
(`none` when that file is missing or malformed, which degrades to an
empty folder list), and the item subfolders in listing order. -/
structure Library where
  rootExists : Bool
  libraryMeta : Option (List Folder)
  items : List Item

/-- Result of a run: the final state and whether the consolidated
metadata file dist/metadata.json was written. -/
structure RunResult where
  state : RunState
  wroteOutput : Bool
deriving DecidableEq

/-- src/transform.py lines 197-222: the body of the per-file loop.
Thumbnails are counted and skipped, unsupported extensions skipped
uncounted, then `process_file` runs and, on failure, the low-quality and
non-image counters are re-derived from the file and item attributes. -/
def fileStep (images_only : Bool) (min_width : Option Int) (metadata : ItemMetadata)
    (s : RunState) (f : String × Bool) : RunState :=
  if hasThumb f.1 then { s with skipped_thumbnails := s.skipped_thumbnails + 1 }
  else if SUPPORTED_EXTENSIONS.contains (lowerStr (suffixOf f.1)) = false then s
  else
    let res := process_file f.1 f.2 metadata images_only min_width
    let s1 : RunState := { s with copied := s.copied ++ res.writes }
    if res.success then
      { s1 with processed := s1.processed + 1,
                consolidated := s1.consolidated ++ res.record.toList }
    else if IMAGE_EXTENSIONS.contains (lowerStr (suffixOf f.1)) = true ∧
        width_below min_width metadata = true then
      { s1 with skipped_low_quality := s1.skipped_low_quality + 1 }
    else if images_only = true ∧
        SUPPORTED_EXTENSIONS.contains (lowerStr (suffixOf f.1)) = true ∧
        get_file_type (suffixOf f.1) ≠ "image" then
      { s1 with skipped_non_image := s1.skipped_non_image + 1 }
    else s1

/-- src/transform.py lines 174-222: the body of the per-item loop.  An
unreadable sidecar skips the item; a truthy `isDeleted` counts the item
once and skips all its files; otherwise the folder list is rewritten and
every directory entry runs through the file loop. -/
def itemStep (images_only : Bool) (min_width : Option Int) (fm : FolderMap)
    (s : RunState) (it : Item) : RunState :=
  match it.sidecar with
  | none => s
  | some m =>
    if m.isDeleted then { s with deleted := s.deleted + 1 }
    else
      let m2 := rewriteFolders fm m
      it.files.foldl (fileStep images_only min_width m2) s

/-- src/transform.py lines 153-227: `process_library`, from the library
root check to the write of dist/metadata.json.  A missing root returns
before anything is read, copied or written; otherwise the folder map is
built once, all items are processed, and the consolidated output is
written unconditionally. -/
def process_library (images_only : Bool) (min_width : Option Int) (lib : Library) : RunResult :=
  if lib.rootExists = false then ⟨initState, false⟩
  else
    let fm := build_folder_map (lib.libraryMeta.getD []) []
    ⟨lib.items.foldl (itemStep images_only min_width fm) initState, true⟩

/-! ## Spec-side definition for the normalizer

Restates spec section 4.1 for comparison with the code's
`normalize_filename`. -/

/-- Follows the spec's words, section 4.1: the output is
`lowercase(strip-non-alphanumeric-and-hyphen(replace-spaces-with-hyphens(name)))`
followed by a hyphen, the item identifier, and the lowercased extension,
where name and extension come from splitting the file name at its
extension. -/
def normalize_filename_spec (filename : String) (item_id : String) : String :=
  let pr := splitext filename.data
  String.mk (lowerList (stripBad (replaceSpaces pr.1)) ++ ('-' :: item_id.data) ++ lowerList pr.2)

/-! ## Concrete scenario data used by individual claims -/

/-- Scenario D folder tree of the spec: a locked folder with an unlocked
child. -/
def fTree : List Folder :=
  [Folder.node "a" "Art" true [Folder.node "b" "Sketches" false []]]

/-- An item whose two file names normalize to the same string. -/
def lib3 : Library :=
  ⟨true, none, [⟨some ⟨some "1", false, none, none, []⟩,
    [("a b.png", true), ("a-b.png", true)]⟩]⟩

/-- Metadata of a soft-deleted item with identifier 9. -/
def mdel : ItemMetadata := ⟨some "9", true, none, none, []⟩

/-- Metadata with an id and no other populated key. -/
def m6w : ItemMetadata := ⟨some "1", false, none, none, []⟩

/-- A deleted item holding a thumbnail-named file. -/
def lib6 : Library :=
  ⟨true, none, [⟨some ⟨some "1", true, none, none, []⟩, [("Thumbnail.png", true)]⟩]⟩

/-- Spec scenario A/B item: id 1, width 100. -/
def m8 : ItemMetadata := ⟨some "1", false, none, some 100, []⟩

/-- Scenario B library: the width-100 item with one PNG file. -/
def lib8 : Library := ⟨true, none, [⟨some m8, [("My Photo.PNG", true)]⟩]⟩

/-- The width-100 item with one supported non-image file. -/
def lib8d : Library := ⟨true, none, [⟨some m8, [("doc.docx", true)]⟩]⟩

/-- A library whose root is absent. -/
def lib9a : Library :=
  ⟨false, none, [⟨some ⟨some "1", false, none, none, []⟩, [("a.png", true)]⟩]⟩

/-- A present library with a sidecar-less item and a failing copy. -/
def lib9b : Library := ⟨true, none, [⟨none, [("b.png", false)]⟩]⟩

/-- An item with width 300 and one accepted PNG. -/
def lib7 : Library :=
  ⟨true, none, [⟨some ⟨some "1", false, none, some 300, []⟩, [("a.png", true)]⟩]⟩

/-- The record lib7's single file produces. -/
def rec7 : Record := ⟨⟨some "1", false, none, some 300, []⟩, "a-1.png", "image"⟩

/-- Metadata used for the C10 witness. -/
def m10 : ItemMetadata := ⟨some "1", false, none, none, []⟩

/-- The record `process_file` produces from m10 and the file a.png. -/
def r10 : Record := ⟨m10, "a-1.png", "image"⟩

/-! ## Helper lemmas on characters -/

theorem toNat_ofNat_small (n : Nat) (h : n < 128) : (Char.ofNat n).toNat = n := by
  unfold Char.ofNat
  rw [dif_pos]
  · rfl
  · exact Or.inl (by omega)

theorem lowerChar_toNat (c : Char) :
    (lowerChar c).toNat = if 65 ≤ c.toNat ∧ c.toNat ≤ 90 then c.toNat + 32 else c.toNat := by
  by_cases h : 65 ≤ c.toNat ∧ c.toNat ≤ 90
  · unfold lowerChar
    rw [if_pos h, if_pos h, toNat_ofNat_small _ (by omega)]
  · unfold lowerChar
    rw [if_neg h, if_neg h]

theorem lowerChar_eq_self {c : Char} (h : ¬(65 ≤ c.toNat ∧ c.toNat ≤ 90)) : lowerChar c = c := by
  unfold lowerChar
  rw [if_neg h]

theorem lowerChar_idem (c : Char) : lowerChar (lowerChar c) = lowerChar c := by
  by_cases h : 65 ≤ c.toNat ∧ c.toNat ≤ 90
  · apply lowerChar_eq_self
    have ht := lowerChar_toNat c
    rw [if_pos h] at ht
    rw [ht]
    omega
  · rw [lowerChar_eq_self h, lowerChar_eq_self h]

theorem keepChar_iff (c : Char) :
    keepChar c = true ↔ (97 ≤ c.toNat ∧ c.toNat ≤ 122) ∨ (65 ≤ c.toNat ∧ c.toNat ≤ 90) ∨
      (48 ≤ c.toNat ∧ c.toNat ≤ 57) ∨ c.toNat = 45 := by
  unfold keepChar
  simp [Bool.or_eq_true, Bool.and_eq_true, decide_eq_true_eq, beq_iff_eq]
  tauto

theorem keepChar_lowerChar {c : Char} (h : keepChar c = true) : keepChar (lowerChar c) = true := by
  rw [keepChar_iff] at h ⊢
  rw [lowerChar_toNat]
  split <;> omega

theorem lowerChar_ne_space {c : Char} (h : keepChar c = true) : lowerChar c ≠ ' ' := by
  have ht := lowerChar_toNat c
  rw [keepChar_iff] at h
  intro he
  rw [he] at ht
  have hsp : (' ' : Char).toNat = 32 := rfl
  rw [hsp] at ht
  split at ht <;> omega

/-! ## Helper lemmas on lists -/

theorem map_id_of_mem {α : Type} (l : List α) (f : α → α) (h : ∀ x ∈ l, f x = x) :
    l.map f = l := by
  induction l with
  | nil => rfl
  | cons a t ih =>
    simp only [List.map_cons]
    rw [h a (by simp), ih (fun x hx => h x (by simp [hx]))]

theorem filter_eq_self_of_mem {α : Type} (l : List α) (p : α → Bool)
    (h : ∀ x ∈ l, p x = true) : l.filter p = l := by
  induction l with
  | nil => rfl
  | cons a t ih =>
    rw [List.filter_cons, if_pos (h a (by simp)), ih (fun x hx => h x (by simp [hx]))]

theorem foldl_preserve {α σ : Type} (P : σ → Prop) {step : σ → α → σ}
    (hstep : ∀ s a, P s → P (step s a)) :
    ∀ (l : List α) (s : σ), P s → P (l.foldl step s) := by
  intro l
  induction l with
  | nil => intro s h; exact h
  | cons a t ih => intro s h; exact ih (step s a) (hstep s a h)

/-! ## The name-mangling core is idempotent -/

theorem mem_norm_core {x : Char} {s : List Char} (hx : x ∈ norm_core s) :
    ∃ c, keepChar c = true ∧ x = lowerChar c := by
  unfold norm_core lowerList stripBad at hx
  rcases List.mem_map.mp hx with ⟨c, hc, rfl⟩
  exact ⟨c, (List.mem_filter.mp hc).2, rfl⟩

theorem norm_core_idem (s : List Char) : norm_core (norm_core s) = norm_core s := by
  have hprops : ∀ x ∈ norm_core s, keepChar x = true ∧ lowerChar x = x ∧ x ≠ ' ' := by
    intro x hx
    rcases mem_norm_core hx with ⟨c, hk, rfl⟩
    exact ⟨keepChar_lowerChar hk, lowerChar_idem c, lowerChar_ne_space hk⟩
  have h1 : replaceSpaces (norm_core s) = norm_core s := by
    apply map_id_of_mem
    intro x hx
    rw [if_neg (hprops x hx).2.2]
  have h2 : stripBad (norm_core s) = norm_core s := by
    apply filter_eq_self_of_mem
    intro x hx
    exact (hprops x hx).1
  have h3 : lowerList (norm_core s) = norm_core s := by
    apply map_id_of_mem
    intro x hx
    exact (hprops x hx).2.1
  calc norm_core (norm_core s)
      = lowerList (stripBad (replaceSpaces (norm_core s))) := rfl
    _ = norm_core s := by rw [h1, h2, h3]

/-! ## Case analysis of process_file -/

theorem process_file_spec (fname : String) (copyOk : Bool) (m : ItemMetadata)
    (images_only : Bool) (min_width : Option Int) :
    process_file fname copyOk m images_only min_width = ⟨false, none, []⟩ ∨
    (∃ iid, m.id = some iid ∧ width_below min_width m = false ∧
      process_file fname copyOk m images_only min_width =
        ⟨true, some ⟨m, normalize_filename fname iid, get_file_type (suffixOf fname)⟩,
         [normalize_filename fname iid]⟩) := by
  unfold process_file
  split
  · exact Or.inl rfl
  split
  · exact Or.inl rfl
  next iid hid =>
    split
    · exact Or.inl rfl
    next hw =>
      split
      · exact Or.inl rfl
      split
      · exact Or.inr ⟨iid, hid, by simpa using hw, rfl⟩
      · exact Or.inl rfl

/-! ## Claim C1 -/

/-- C1, counterexample: the spec's Scenario E is wrong on the code.  The
two spaces of `weird!!name  2024.docx` become two hyphens, which the
strip step keeps, so the normalized name has a double hyphen, not the
single hyphen the claim states. -/
theorem C1_scenarioE_counterexample :
    normalize_filename "weird!!name  2024.docx" "42" ≠ "weirdname-2024-42.docx" := by
  decide

/-- C1, amended: normalize_filename follows the spec's output formula
(lowercase of the stripped, space-to-hyphen name, then a hyphen, the item
identifier and the lowercased extension), a name that is empty after
stripping yields just `-id.ext`, and Scenario E actually yields
`weirdname--2024-42.docx` with a double hyphen, since each space becomes
a kept hyphen and consecutive hyphens are not collapsed. -/
theorem C1_normalize_formula_and_examples :
    (∀ (f i : String), normalize_filename f i = normalize_filename_spec f i) ∧
    normalize_filename "weird!!name  2024.docx" "42" = "weirdname--2024-42.docx" ∧
    normalize_filename "!!!.ext" "42" = "-42.ext" :=
  ⟨fun _ _ => rfl, by decide, by decide⟩

/-! ## Claim C4 -/

/-- C4, counterexample: normalize_filename is not idempotent with the
identifier held fixed, because the second application appends the
identifier again: normalizing `a.png` with id 1 gives `a-1.png`, and
normalizing that again gives `a-1-1.png`. -/
theorem C4_not_idempotent_counterexample :
    normalize_filename (normalize_filename "a.png" "1") "1" ≠
      normalize_filename "a.png" "1" := by
  decide

/-- C4, amended: the name-mangling core of normalization (replace spaces
by hyphens, strip everything but ASCII letters, digits and hyphens,
lowercase) is idempotent; full normalize_filename is not, since it
re-appends the identifier and the extension on every application. -/
theorem C4_norm_core_idempotent : ∀ s : List Char, norm_core (norm_core s) = norm_core s :=
  norm_core_idem

/-! ## Claim C5 -/

/-- C5, confirmed: an item whose metadata has a truthy isDeleted is
dropped before its files are looked at, under every filter
configuration: no copy, no consolidated record, every other counter
unchanged, and the deleted counter incremented exactly once for the item
regardless of how many files it holds. -/
theorem C5_deleted_item_skipped (images_only : Bool) (min_width : Option Int)
    (fm : FolderMap) (s : RunState) (m : ItemMetadata) (files : List (String × Bool))
    (hdel : m.isDeleted = true) :
    itemStep images_only min_width fm s ⟨some m, files⟩ =
      { s with deleted := s.deleted + 1 } := by
  unfold itemStep
  simp [hdel]

/-- Witness for C5 at a concrete deleted item with two files. -/
theorem C5_deleted_item_witness :
    itemStep false none [] initState ⟨some mdel, [("a.png", true), ("b.txt", true)]⟩ =
      { initState with deleted := initState.deleted + 1 } :=
  C5_deleted_item_skipped false none [] initState mdel [("a.png", true), ("b.txt", true)] rfl

/-! ## Claim C6 -/

/-- C6, counterexample: a thumbnail-named file inside a soft-deleted item
is excluded, but it is not counted as a skipped thumbnail (the item is
dropped before the file loop runs), so the claim's unconditional
"counted as a skipped thumbnail" fails. -/
theorem C6_thumbnail_uncounted_counterexample :
    hasThumb "Thumbnail.png" = true ∧
    (process_library false none lib6).state.skipped_thumbnails = 0 ∧
    (process_library false none lib6).state.copied = [] ∧
    (process_library false none lib6).state.consolidated = [] := by
  decide

/-- C6, amended: a file whose name contains "thumbnail" in any letter
case is always excluded from consolidation (process_file refuses it with
no copy and no record under every configuration), and it is counted as a
skipped thumbnail exactly when it reaches the file loop, i.e. when its
item has a readable, non-deleted sidecar; files of items skipped
upstream are excluded but not counted. -/
theorem C6_thumbnail_excluded_when_reached :
    (∀ (images_only : Bool) (min_width : Option Int) (m : ItemMetadata) (s : RunState)
        (fname : String) (c : Bool), hasThumb fname = true →
        fileStep images_only min_width m s (fname, c) =
          { s with skipped_thumbnails := s.skipped_thumbnails + 1 }) ∧
    (∀ (fname : String) (c : Bool) (m : ItemMetadata) (images_only : Bool)
        (min_width : Option Int), hasThumb fname = true →
        process_file fname c m images_only min_width = ⟨false, none, []⟩) := by
  constructor
  · intro images_only min_width m s fname c h
    unfold fileStep
    simp [h]
  · intro fname c m images_only min_width h
    unfold process_file
    rw [if_pos (Or.inr (Or.inl h))]

/-- Witness for C6 at a concrete thumbnail file of unsupported-for-images
extension, in both conjuncts. -/
theorem C6_thumbnail_witness :
    fileStep false none m6w initState ("Thumbnail.docx", true) =
      { initState with skipped_thumbnails := initState.skipped_thumbnails + 1 } ∧
    process_file "Thumbnail.docx" true m6w false none = ⟨false, none, []⟩ :=
  ⟨C6_thumbnail_excluded_when_reached.1 false none m6w initState "Thumbnail.docx" true (by decide),
   C6_thumbnail_excluded_when_reached.2 "Thumbnail.docx" true m6w false none (by decide)⟩

/-! ## Claim C9 -/

/-- C9, confirmed: a missing library root makes the run return before
reading, copying or writing anything (empty state, no output metadata
file); when the root exists, the run always reaches the final write of
dist/metadata.json, whatever the library metadata, the sidecars and the
copy outcomes are.  The source handles exactly the lesser problems the
claim lists: a missing or JSON-malformed library metadata degrades to an
empty folder list, a missing or malformed sidecar skips the item, and a
failed copy skips the file. -/
theorem C9_missing_root_aborts (images_only : Bool) (min_width : Option Int) (lib : Library) :
    (lib.rootExists = false → process_library images_only min_width lib = ⟨initState, false⟩) ∧
    (lib.rootExists = true → (process_library images_only min_width lib).wroteOutput = true) := by
  constructor
  · intro h
    unfold process_library
    rw [if_pos h]
  · intro h
    unfold process_library
    rw [if_neg (by simp [h])]

/-- Witness for C9: a missing-root library aborts with nothing done, and
a present library with a sidecar-less item and a failing copy still
completes and writes the output. -/
theorem C9_missing_root_witness :
    process_library false none lib9a = ⟨initState, false⟩ ∧
    (process_library false none lib9b).wroteOutput = true :=
  ⟨(C9_missing_root_aborts false none lib9a).1 rfl,
   (C9_missing_root_aborts false none lib9b).2 rfl⟩

/-! ## Claim C10 -/

/-- C10, confirmed: whenever process_file returns a record, that record
is the input metadata unchanged with only filename and file_type added:
its meta equals the input dictionary, its file_type is the classifier's
answer for the file's extension, the single write performed is to the
record's filename, and the filename is the normalization of this very
file's name with the item's own identifier.  In particular all records
of one item share the item's fields and differ only in filename and
file_type, and no record carries a filename derived from a different
file. -/
theorem C10_record_preserves_metadata (fname : String) (c : Bool) (m : ItemMetadata)
    (images_only : Bool) (min_width : Option Int) (b : Bool) (r : Record) (ws : List String)
    (h : process_file fname c m images_only min_width = ⟨b, some r, ws⟩) :
    r.meta = m ∧ r.file_type = get_file_type (suffixOf fname) ∧ ws = [r.filename] ∧
    ∃ iid, m.id = some iid ∧ r.filename = normalize_filename fname iid := by
  rcases process_file_spec fname c m images_only min_width with hpf | ⟨iid, hid, _, hpf⟩
  · rw [hpf] at h
    simp at h
  · rw [hpf] at h
    simp only [PFResult.mk.injEq, Option.some.injEq] at h
    obtain ⟨_, hr, hws⟩ := h
    subst hr
    exact ⟨rfl, rfl, hws.symm, iid, hid, rfl⟩

/-- Witness for C10 at a concretely accepted file. -/
theorem C10_record_witness :
    r10.meta = m10 ∧ r10.file_type = get_file_type (suffixOf "a.png") ∧
    ["a-1.png"] = [r10.filename] ∧
    ∃ iid, m10.id = some iid ∧ r10.filename = normalize_filename "a.png" iid :=
  C10_record_preserves_metadata "a.png" true m10 false none true r10 ["a-1.png"] (by decide)

/-! ## Claim C3 -/

theorem fileStep_copied (images_only : Bool) (min_width : Option Int) (m : ItemMetadata)
    (s : RunState) (f : String × Bool)
    (h : s.copied = s.consolidated.map Record.filename) :
    (fileStep images_only min_width m s f).copied =
      (fileStep images_only min_width m s f).consolidated.map Record.filename := by
  unfold fileStep
  rcases process_file_spec f.1 f.2 m images_only min_width with hpf | ⟨iid, hid, hw, hpf⟩ <;>
    simp only [hpf] <;> split_ifs <;> simp [h]

theorem itemStep_copied (images_only : Bool) (min_width : Option Int) (fm : FolderMap)
    (s : RunState) (it : Item)
    (h : s.copied = s.consolidated.map Record.filename) :
    (itemStep images_only min_width fm s it).copied =
      (itemStep images_only min_width fm s it).consolidated.map Record.filename := by
  unfold itemStep
  cases it.sidecar with
  | none => exact h
  | some m =>
    by_cases hd : m.isDeleted = true
    · simp [hd]
      exact h
    · simp only [hd, Bool.false_eq_true, if_false]
      exact foldl_preserve (fun st => st.copied = st.consolidated.map Record.filename)
        (fun st f hp => fileStep_copied images_only min_width (rewriteFolders fm m) st f hp)
        it.files s h

/-- C3, amended: every consolidated record corresponds to exactly one
copy operation, in order, and the record's filename equals that copy's
target name; but the map from records to on-disk output files need not
be one-to-one, because two distinct source files whose names normalize
to the same string both succeed, both add a record, and the second copy
silently overwrites the first file. -/
theorem C3_copied_matches_records (images_only : Bool) (min_width : Option Int) (lib : Library) :
    (process_library images_only min_width lib).state.copied =
      ((process_library images_only min_width lib).state.consolidated).map Record.filename := by
  unfold process_library
  by_cases hr : lib.rootExists = false
  · rw [if_pos hr]
    rfl
  · rw [if_neg hr]
    exact foldl_preserve (fun st => st.copied = st.consolidated.map Record.filename)
      (fun st it hp => itemStep_copied images_only min_width
        (build_folder_map (lib.libraryMeta.getD []) []) st it hp)
      lib.items initState rfl

/-- C3, counterexample: in lib3 the files `a b.png` and `a-b.png` of one
item both normalize to `a-b-1.png`; the run produces two consolidated
records but only one distinct output file name, so records and copied
files are not in one-to-one correspondence. -/
theorem C3_collision_counterexample :
    (process_library false none lib3).state.consolidated.length = 2 ∧
    ((process_library false none lib3).state.copied).dedup.length = 1 ∧
    (process_library false none lib3).state.copied = ["a-b-1.png", "a-b-1.png"] := by
  decide

/-! ## Claim C7 -/

theorem fileStep_width (images_only : Bool) (W : Int) (m : ItemMetadata)
    (hW : 0 < W) (s : RunState) (f : String × Bool)
    (h : ∀ r ∈ s.consolidated, W ≤ r.meta.width.getD 0) :
    ∀ r ∈ (fileStep images_only (some W) m s f).consolidated, W ≤ r.meta.width.getD 0 := by
  rcases process_file_spec f.1 f.2 m images_only (some W) with hpf | ⟨iid, hid, hw, hpf⟩
  · unfold fileStep
    simp only [hpf]
    split_ifs <;> simpa using h
  · have hge : W ≤ m.width.getD 0 := by
      simp only [width_below] at hw
      by_contra hlt
      push_neg at hlt
      simp [hlt, bne_eq_false_iff_eq] at hw
      omega
    unfold fileStep
    simp only [hpf]
    split_ifs <;> intro r hr
    all_goals first
      | exact h r hr
      | (rcases List.mem_append.mp hr with h1 | h1
         · exact h r h1
         · have h2 := List.mem_singleton.mp h1
           subst h2
           simpa using hge)

theorem itemStep_width (images_only : Bool) (W : Int) (fm : FolderMap)
    (hW : 0 < W) (s : RunState) (it : Item)
    (h : ∀ r ∈ s.consolidated, W ≤ r.meta.width.getD 0) :
    ∀ r ∈ (itemStep images_only (some W) fm s it).consolidated, W ≤ r.meta.width.getD 0 := by
  unfold itemStep
  cases it.sidecar with
  | none => exact h
  | some m =>
    by_cases hd : m.isDeleted = true
    · simp [hd]
      exact fun r hr => h r hr
    · simp only [hd, Bool.false_eq_true, if_false]
      exact foldl_preserve (fun st => ∀ r ∈ st.consolidated, W ≤ r.meta.width.getD 0)
        (fun st f hp => fileStep_width images_only W (rewriteFolders fm m) hW st f hp)
        it.files s h

/-- C7, confirmed: with a configured positive minimum width W, every
record that enters the consolidated metadata carries a width of at least
W, where an absent width counts as 0 (and is therefore excluded for
every positive W). -/
theorem C7_min_width_bound (images_only : Bool) (W : Int) (lib : Library) (r : Record)
    (hW : 0 < W)
    (hr : r ∈ (process_library images_only (some W) lib).state.consolidated) :
    W ≤ r.meta.width.getD 0 := by
  unfold process_library at hr
  by_cases hroot : lib.rootExists = false
  · rw [if_pos hroot] at hr
    simp [initState] at hr
  · rw [if_neg hroot] at hr
    exact foldl_preserve (fun st => ∀ x ∈ st.consolidated, W ≤ x.meta.width.getD 0)
      (fun st it hp => itemStep_width images_only W
        (build_folder_map (lib.libraryMeta.getD []) []) hW st it hp)
      lib.items initState (by simp [initState]) r hr

/-- Witness for C7: the record of lib7's accepted 300-wide PNG satisfies
the 200 bound. -/
theorem C7_min_width_witness : (200 : Int) ≤ rec7.meta.width.getD 0 :=
  C7_min_width_bound false 200 lib7 rec7 (by decide) (by decide)

/-! ## Claim C8 -/

/-- C8, amended: with a configured nonzero minimum width, a non-thumbnail
file whose extension is an image extension and whose item width (default
0) lies below the threshold is counted as low-quality and produces no
copy and no record, whatever the reason process_file actually rejected
it for; in particular the Scenario B run (width-100 item, one PNG,
threshold 200) yields zero output files and exactly one low-quality
count.  Files whose extension is supported but not an image extension
are never counted as low-quality, contrary to the original claim. -/
theorem C8_low_quality_counting :
    (∀ (images_only : Bool) (W : Int) (s : RunState) (m : ItemMetadata)
        (fname : String) (c : Bool),
        W ≠ 0 → hasThumb fname = false →
        IMAGE_EXTENSIONS.contains (lowerStr (suffixOf fname)) = true →
        m.width.getD 0 < W →
        fileStep images_only (some W) m s (fname, c) =
          { s with skipped_low_quality := s.skipped_low_quality + 1 }) ∧
    process_library false (some 200) lib8 =
      ⟨{ initState with skipped_low_quality := 1 }, true⟩ := by
  constructor
  · intro images_only W s m fname c hW hth himg hwid
    have himgm : lowerStr (suffixOf fname) ∈ IMAGE_EXTENSIONS := by
      simpa only [List.contains, List.elem_iff] using himg
    have hsupm : lowerStr (suffixOf fname) ∈ SUPPORTED_EXTENSIONS := by
      show lowerStr (suffixOf fname) ∈ IMAGE_EXTENSIONS ++ _
      exact List.mem_append_left _ himgm
    have hsupp : SUPPORTED_EXTENSIONS.contains (lowerStr (suffixOf fname)) = true := by
      simpa only [List.contains, List.elem_iff] using hsupm
    have hwb : width_below (some W) m = true := by
      simp only [width_below]
      simp [hwid, hW]
    have hmj : fname ≠ "metadata.json" := by
      intro he
      rw [he] at himg
      revert himg
      decide
    have hpf : process_file fname c m images_only (some W) = ⟨false, none, []⟩ := by
      unfold process_file
      rw [if_neg (by simp [hmj, hth, hsupp, hsupm])]
      split
      · rfl
      · rw [if_pos hwb]
    unfold fileStep
    simp [hth, hsupp, hpf, himg, himgm, hsupm, hwb]
  · decide

/-- Witness for C8: Scenario B at the file level, through the general
statement. -/
theorem C8_low_quality_witness :
    fileStep false (some 200) m8 initState ("My Photo.PNG", true) =
      { initState with skipped_low_quality := initState.skipped_low_quality + 1 } :=
  C8_low_quality_counting.1 false 200 initState m8 "My Photo.PNG" true (by decide) (by decide)
    (by decide) (by decide)

/-- C8, counterexample: `doc.docx` is supported but not an image
extension; with threshold 200 and item width 100 the file is excluded
(no record, no copy), yet the low-quality counter stays 0, refuting the
claim's "including files whose extension is supported but not an image
extension". -/
theorem C8_docx_counterexample :
    SUPPORTED_EXTENSIONS.contains (lowerStr (suffixOf "doc.docx")) = true ∧
    IMAGE_EXTENSIONS.contains (lowerStr (suffixOf "doc.docx")) = false ∧
    m8.width.getD 0 < 200 ∧
    (process_library false (some 200) lib8d).state.skipped_low_quality = 0 ∧
    (process_library false (some 200) lib8d).state.consolidated = [] ∧
    (process_library false (some 200) lib8d).state.copied = [] := by
  decide

/-! ## Claim C2 -/

theorem fmMem_fmInsert {m : FolderMap} {k v j : String}
    (h : fmMem (fmInsert m k v) j = true) : fmMem m j = true ∨ j = k := by
  unfold fmInsert at h
  split at h
  · unfold fmMem at h ⊢
    rw [List.any_map] at h
    rcases List.any_eq_true.mp h with ⟨p, hp, hpj⟩
    by_cases hpk : p.1 == k
    · right
      simp only [Function.comp_apply, if_pos hpk] at hpj
      exact (beq_iff_eq.mp hpj).symm
    · left
      simp only [Function.comp_apply, if_neg hpk] at hpj
      exact List.any_eq_true.mpr ⟨p, hp, hpj⟩
  · unfold fmMem at h ⊢
    rw [List.any_append] at h
    rcases Bool.or_eq_true_iff.mp h with h1 | h1
    · exact Or.inl h1
    · right
      simp at h1
      exact h1.symm

theorem build_keys (fs : List Folder) (m : FolderMap) :
    ∀ k, fmMem (build_folder_map fs m) k = true →
      fmMem m k = true ∨ reachableUnlocked fs k = true := by
  induction fs, m using build_folder_map.induct with
  | case1 m =>
    intro k h
    rw [build_folder_map] at h
    exact Or.inl h
  | case2 fid fname cs rest m ih =>
    intro k h
    rw [build_folder_map, if_pos rfl] at h
    rcases ih k h with h1 | h1
    · exact Or.inl h1
    · right
      rw [reachableUnlocked]
      simp [h1]
  | case3 fid fname pw cs rest m hpw ih1 ih2 =>
    intro k h
    have hpwf : pw = false := by
      cases pw
      · rfl
      · exact absurd rfl hpw
    rw [build_folder_map, if_neg hpw] at h
    rcases ih2 k h with h1 | h1
    · rcases ih1 k h1 with h2 | h2
      · rcases fmMem_fmInsert h2 with h3 | h3
        · exact Or.inl h3
        · right
          rw [reachableUnlocked]
          simp [hpwf, h3]
      · right
        rw [reachableUnlocked]
        simp [hpwf, h2]
    · right
      rw [reachableUnlocked]
      simp [h1]

/-- C2, confirmed: the folder map built from any tree contains a key only
when some node carrying that id is reachable without crossing a node
with a truthy password (neither the node itself nor any ancestor is
locked); on the Scenario D tree the map is empty, and an item
referencing folder b resolves to an empty folders list. -/
theorem C2_folder_map_locked_only :
    (∀ (fs : List Folder) (k : String),
        fmMem (build_folder_map fs []) k = true → reachableUnlocked fs k = true) ∧
    build_folder_map fTree [] = [] ∧
    (rewriteFolders (build_folder_map fTree [])
        ⟨some "i1", false, some ["b"], none, []⟩).folders = some [] := by
  refine ⟨?_, ?_, ?_⟩
  · intro fs k h
    rcases build_keys fs [] k h with h1 | h1
    · simp [fmMem] at h1
    · exact h1
  · simp [fTree, build_folder_map, fmInsert, fmMem]
  · simp [fTree, build_folder_map, fmInsert, fmMem, rewriteFolders, fmGet]

/-- Witness for C2: a key present in the map built from a one-node
unlocked tree is reachable-unlocked there. -/
theorem C2_folder_map_witness :
    reachableUnlocked [Folder.node "c" "Misc" false []] "c" = true :=
  C2_folder_map_locked_only.1 [Folder.node "c" "Misc" false []] "c"
    (by simp [build_folder_map, fmInsert, fmMem])

end EagleTransform
